import Mathlib

/-!
Verification development for the perifusion trait-extraction engine
(`code/peak_function.py` of the DynamicPerifusionTraits repository).

The Python source is shallowly embedded here.  Real numbers (Python
floats) are modelled by `ℚ`; the claims under study are exact algebraic
facts about the algorithms, not about floating-point rounding.  A missing
sample (pandas `NaN` / `pd.NA`) is modelled by `Option ℚ` with `none` for
the missing value; pandas comparison semantics (`NaN` compares false) are
reproduced where the orchestrator needs them.  Python exceptions that
abort the whole `traits_for_all` call are modelled with `Except`.
-/

/-- Tolerance constant `FLOAT_TOLERANCE = 1e-5` from `peak_function.py`. -/
def FLOAT_TOLERANCE : ℚ := 1 / 100000

/-- Maximum of a list, mirroring Python `max(l)` / `np.max(l)` on a nonempty
list; the empty list is sent to 0, which mirrors the source's explicit guard
`max(y_corrected_curve) if len(y_corrected_curve) > 0 else 0`.  (All other
uses in the embedding are on nonempty lists.) -/
def listMax : List ℚ → ℚ
  | [] => 0
  | v :: t => t.foldl (fun a c => if a < c then c else a) v

/-- First index attaining the maximum, mirroring `np.argmax` (ties go to the
first occurrence).  Auxiliary loop: current max `m`, next index `i`,
current best index `best`. -/
def argmaxAux : List ℚ → ℚ → ℕ → ℕ → ℕ
  | [], _, _, best => best
  | v :: t, m, i, best => if m < v then argmaxAux t v (i + 1) i else argmaxAux t m (i + 1) best

/-- First index of the maximum of a list (`np.argmax`); 0 on the empty list. -/
def argmaxFirst : List ℚ → ℕ
  | [] => 0
  | v :: t => argmaxAux t v 1 0

/-- The peak-region scan of `AUC_from_a_region` (source lines 200-214):
walk the corrected curve left to right; `start?` is the Python variable
`peak_start` (`none` = `None`); on leaving a positive run at index `i`,
record `(peak_start, i - 1)` when `i - peak_start >= min_peak_length`;
after the loop record a run that reaches the end of the curve when
`len(y) - peak_start >= min_peak_length`.  The list argument is the still
unscanned suffix of the curve and `i` the absolute index of its head. -/
def scanGo (minLen : ℤ) : List ℚ → ℕ → Option ℕ → List (ℕ × ℕ)
  | [], i, some s => if minLen ≤ (i : ℤ) - (s : ℤ) then [(s, i - 1)] else []
  | [], _, none => []
  | v :: rest, i, none =>
      if FLOAT_TOLERANCE < v then scanGo minLen rest (i + 1) (some i)
      else scanGo minLen rest (i + 1) none
  | v :: rest, i, some s =>
      if FLOAT_TOLERANCE < v then scanGo minLen rest (i + 1) (some s)
      else
        (if minLen ≤ (i : ℤ) - (s : ℤ) then [(s, i - 1)] else []) ++
          scanGo minLen rest (i + 1) none

/-- `peak_regions` accumulated by `AUC_from_a_region` before the
relative-height filter. -/
def peak_regions (y : List ℚ) (minLen : ℤ) : List (ℕ × ℕ) :=
  scanGo minLen y 0 none

/-- Maximum of the slice `y[s : e + 1]` (`np.max(y_corrected_curve[start_idx : end_idx + 1])`). -/
def sliceMax (y : List ℚ) (s e : ℕ) : ℚ :=
  listMax ((y.drop s).take (e + 1 - s))

/-- The regions surviving the relative-height filter of source line 227:
a region is skipped iff `height < min_height_ratio * max_curve_value`,
where the height is the maximum over the region's slice and
`max_curve_value` is the maximum of the whole corrected curve
(0 for an empty curve). -/
def surviving_regions (y : List ℚ) (r : ℚ) (minLen : ℤ) : List (ℕ × ℕ) :=
  (peak_regions y minLen).filter
    (fun se => !(decide (sliceMax y se.1 se.2 < r * listMax y)))

/-- Trapezoidal sum of source lines 231-233:
`sum over i in [s, e) of (x[i+1] - x[i]) * (y[i] + y[i+1]) / 2`. -/
def trapz (x y : List ℚ) (s e : ℕ) : ℚ :=
  ((List.range (e - s)).map
    (fun k =>
      (x.getD (s + k + 1) 0 - x.getD (s + k) 0) *
        (y.getD (s + k) 0 + y.getD (s + k + 1) 0) / 2)).sum

/-- Left-boundary refinement of source lines 236-247: returns the refined
start time and the extra triangular area added to the AUC. -/
def left_refine (x y : List ℚ) (s : ℕ) : ℚ × ℚ :=
  if s = 0 then (x.getD 0 0, 0)
  else
    let dx := x.getD s 0 - x.getD (s - 1) 0
    let dy := y.getD s 0 - y.getD (s - 1) 0
    if FLOAT_TOLERANCE < |dy| then
      let st := x.getD s 0 - dx * y.getD s 0 / dy
      (st, (x.getD s 0 - st) * y.getD s 0 / 2)
    else (x.getD s 0, 0)

/-- Right-boundary refinement of source lines 250-261: returns the refined
end time and the extra triangular area added to the AUC.  Note the source
divides by `abs(dy)` here, unlike the left boundary. -/
def right_refine (x y : List ℚ) (e : ℕ) : ℚ × ℚ :=
  if e = y.length - 1 then (x.getD e 0, 0)
  else
    let dx := x.getD (e + 1) 0 - x.getD e 0
    let dy := y.getD (e + 1) 0 - y.getD e 0
    if FLOAT_TOLERANCE < |dy| then
      let ed := x.getD e 0 + dx * y.getD e 0 / |dy|
      (ed, (ed - x.getD e 0) * y.getD e 0 / 2)
    else (x.getD e 0, 0)

/-- One emitted peak (`peak_info` tuple of the source):
`(start_x, end_x, peak_x, peak_y, auc, baseline)`. -/
structure PeakInfo where
  startX : ℚ
  endX : ℚ
  peakX : ℚ
  peakY : ℚ
  auc : ℚ
  baseline : ℚ
  deriving DecidableEq, Repr

/-- The summary list `[N_peaks, total_area, baseline, max_height]` of
`AUC_from_a_region`. -/
structure Summary where
  nPeaks : ℕ
  totalArea : ℚ
  baseline : ℚ
  maxHeight : ℚ
  deriving DecidableEq, Repr

/-- Per-region computation of source lines 219-263 for a region that passed
both filters: height and argmax over the slice, trapezoidal AUC, and the
two boundary refinements. -/
def peakCompute (x y : List ℚ) (b : ℚ) (se : ℕ × ℕ) : PeakInfo :=
  let s := se.1
  let e := se.2
  let vals := (y.drop s).take (e + 1 - s)
  { startX := (left_refine x y s).1
    endX := (right_refine x y e).1
    peakX := x.getD (argmaxFirst vals + s) 0
    peakY := listMax vals
    auc := trapz x y s e + (left_refine x y s).2 + (right_refine x y e).2
    baseline := b }

/-- `AUC_from_a_region(x_curve, y_corrected_curve, y_baseline,
min_height_ratio, min_peak_length)` (source lines 137-269).  The source
interleaves the height filter with the per-region AUC computation inside
one loop; since each iteration is pure, this is the same as filtering the
regions first and then mapping the per-region computation.  The summary
accumulators start at `[0, 0, y_baseline, 0]` and collect count, total
area and running maximum height exactly as in the loop. -/
def AUC_from_a_region (x y : List ℚ) (b r : ℚ) (minLen : ℤ) :
    Summary × List PeakInfo :=
  let peaks := (surviving_regions y r minLen).map (peakCompute x y b)
  ({ nPeaks := peaks.length
     totalArea := (peaks.map PeakInfo.auc).sum
     baseline := b
     maxHeight := peaks.foldl (fun m p => if m < p.peakY then p.peakY else m) 0 },
   peaks)

deriving instance DecidableEq for Except

/-- A table cell: `none` models a pandas missing value (`NaN` / `pd.NA`). -/
abbrev OVal := Option ℚ

/-- One `|`-separated token of a textual range specification after the split
on `-` and the `int(...)` conversions of source lines 56-61: either a closed
integer interval `"a-b"` or a single integer time point `"p"`.  (The string
scanning itself — `split('|')`, `'-' in token`, `int(token)` — is the parsing
layer; a malformed token raises Python's `ValueError`, the spec's
ParseError, before any resolution happens, so resolution is modelled on the
token stream.) -/
inductive RangeToken where
  | interval (lo hi : ℤ)
  | point (p : ℤ)
  deriving DecidableEq, Repr

/-- The pandas mask `(entire_x >= start) & (entire_x <= end)` on one cell;
a missing time value compares false, as NaN does in pandas. -/
def inRangeB (lo hi : ℤ) : OVal → Bool
  | none => false
  | some v => decide ((lo : ℚ) ≤ v) && decide (v ≤ (hi : ℚ))

/-- Whether one axis cell is selected by one token: the masks
`(entire_x >= start) & (entire_x <= end)` resp. `entire_x == time_point`
of source lines 59 and 62. -/
def token_matches : RangeToken → OVal → Bool
  | RangeToken.interval lo hi, x => inRangeB lo hi x
  | RangeToken.point p, x =>
      match x with
      | none => false
      | some v => decide (v = (p : ℚ))

/-- Axis entries selected by one token (`entire_x[mask]`). -/
def resolve_token (axis : List OVal) (tok : RangeToken) : List OVal :=
  axis.filter (token_matches tok)

/-- The `time_points` list accumulated across the `|`-separated tokens
(source lines 53-62): per-token selections, concatenated in order. -/
def resolve_spec (axis : List OVal) (spec : List RangeToken) : List OVal :=
  (spec.map (resolve_token axis)).flatten

/-- `parse_basal_secretion` (source lines 25-65): resolve the ranges, select
the y values whose time is in the resolved point list
(`entire_y[entire_x.isin(time_points)]`), and return their mean.
`np.mean` of an empty selection is NaN, and a NaN among the selected values
makes the mean NaN: both are modelled by `none`. -/
def parse_basal_secretion (time_x ys : List OVal) (spec : List RangeToken) : OVal :=
  let pts := resolve_spec time_x spec
  let sel := ((time_x.zip ys).filter (fun p => decide (p.1 ∈ pts))).map Prod.snd
  if sel.length = 0 then none
  else if sel.any Option.isNone then none
  else some (sel.reduceOption.sum / (sel.length : ℚ))

/-- The time values inside the peak window
(`np.array(entire_x[(entire_x >= start) & (entire_x <= end)])`, line 125).
Selected cells are never NaN (a NaN time matches no mask), so the selected
values are returned as plain rationals. -/
def window_times (time_x : List OVal) (lo hi : ℤ) : List ℚ :=
  (time_x.filter (inRangeB lo hi)).reduceOption

/-- `parse_peak_and_baseline_region` (source lines 68-134) for a donor series
with no missing values (the orchestrator only calls it for such donors):
baseline mean, windowed time axis, and the baseline-corrected window values.
A NaN baseline (empty baseline selection) poisons every corrected value,
hence the corrected curve is a list of `OVal`s that are `none` exactly when
the baseline is. -/
def parse_peak_and_baseline_region (time_x : List OVal) (ys : List ℚ)
    (lo hi : ℤ) (baseSpec : List RangeToken) (neg : Bool) :
    List ℚ × List OVal × OVal :=
  let bO := parse_basal_secretion time_x (ys.map some) baseSpec
  let x_curve := window_times time_x lo hi
  let y_curve := ((time_x.zip ys).filter (fun p => inRangeB lo hi p.1)).map Prod.snd
  let corrected := y_curve.map (fun yv => bO.map (fun bv => if neg then bv - yv else yv - bv))
  (x_curve, corrected, bO)

/-- One row of the phase-parameter table.  `peakRange` holds the two
integers of the mandatory single interval `"a-b"` (already split, like
`baselineTime` holds its parsed tokens); `minHeightR` and `minPeakLength`
are `MinHeightRatio` and `int(MinPeakLength)`. -/
structure PhaseRow where
  peakName : String
  peakRange : ℤ × ℤ
  baselineTime : List RangeToken
  minHeightR : ℚ
  minPeakLength : ℤ
  baselineOrPeak : String
  negativePeak : Bool
  calculateSIorII : Bool
  deriving DecidableEq, Repr

/-- The phase-parameter table: its declared column names (checked against
the required list) and its rows. -/
structure ParamTable where
  columns : List String
  rows : List PhaseRow
  deriving DecidableEq, Repr

/-- The exceptions that abort `traits_for_all`: `KeyError` for a missing
time column (the spec's SchemaError), `AssertionError` for missing
parameter columns (the spec's ConfigError), and `ValueError` from
`np.max` on an empty windowed sub-curve. -/
inductive TraitError where
  | schemaError
  | configError
  | valueError
  deriving DecidableEq, Repr

/-- The output trait table: the `Donor ID` column and one value column per
computed trait, in insertion order. -/
structure TraitTable where
  donorIds : List String
  cols : List (String × List OVal)
  deriving DecidableEq, Repr

/-- Whether a donor series has a missing sample (`input_df[donor].hasnans`). -/
def hasNone (l : List OVal) : Bool := l.any Option.isNone

/-- Lower-cased character list of a string (`s.lower()`); written on
`String.data` so that concrete instances reduce in the kernel. -/
def lowerChars (s : String) : List Char := s.data.map Char.toLower

/-- Whether the four characters of `"time"` start this character list. -/
def startsWithTime : List Char → Bool
  | 't' :: 'i' :: 'm' :: 'e' :: _ => true
  | _ => false

/-- Substring search for `"time"` in a character list. -/
def hasTimeSub : List Char → Bool
  | [] => false
  | c :: rest => startsWithTime (c :: rest) || hasTimeSub rest

/-- The column-name test `'time' in col.lower()` of source line 339. -/
def hasTimeName (s : String) : Bool := hasTimeSub (lowerChars s)

/-- The branch test `row['BaselineOrPeak'].lower() == 'baseline'` of
source line 361. -/
def isBaselineKind (row : PhaseRow) : Bool :=
  decide (lowerChars row.baselineOrPeak = "baseline".data)

/-- The required parameter-table columns of source lines 347-350. -/
def requiredColumns : List String :=
  ["PeakName", "PeakRange", "BaselineTime", "MinHeightRatio", "MinPeakLength",
   "BaselineOrPeak", "NegativePeak", "CalculateSIorII"]

/-- `all_results[trait_name] = results` on a Python dict: replace the value
of an existing key in place, else append the new key at the end. -/
def upsert (acc : List (String × List OVal)) (k : String) (v : List OVal) :
    List (String × List OVal) :=
  if acc.any (fun c => decide (c.1 = k)) then
    acc.map (fun c => if c.1 = k then (k, v) else c)
  else acc ++ [(k, v)]

/-- The first column whose name contains `"time"` case-insensitively
(`time_col_name[0]`, source lines 339-342). -/
def time_col? (input : List (String × List OVal)) : Option (String × List OVal) :=
  (input.filter (fun c => hasTimeName c.1)).head?

/-- The donor columns: every column whose name differs from the chosen time
column's name (source line 344). -/
def donor_cols (input : List (String × List OVal)) : List (String × List OVal) :=
  match time_col? input with
  | none => []
  | some tc => input.filter (fun c => decide (c.1 ≠ tc.1))

/-- The body of the peak branch for one donor with no missing samples
(source lines 380-406): extract and correct the region, integrate, and
compute the SI/II value.  Returns the pair (AUC trait value, SI/II value).
`np.max(sub_y)` on an empty windowed sub-curve raises `ValueError`; on an
all-NaN sub-curve (NaN baseline) it is NaN, so `NaN > 0` is false,
`max_height` becomes 0, and both index guards (`baseline > 0`,
`valley_min * baseline > 0`) are false on the NaN baseline, giving `pd.NA`;
the AUC appended in that case is the untouched accumulator `0` (no value
ever exceeds the tolerance when all corrected values are NaN). -/
def peakDonorResult (time_x : List OVal) (ys : List ℚ) (row : PhaseRow) :
    Except TraitError (OVal × OVal) :=
  let res := parse_peak_and_baseline_region time_x ys row.peakRange.1 row.peakRange.2
    row.baselineTime row.negativePeak
  match res.2.2 with
  | none => if res.2.1.length = 0 then .error .valueError else .ok (some 0, none)
  | some b =>
      let sub_y := res.2.1.reduceOption
      let summary :=
        (AUC_from_a_region res.1 sub_y b row.minHeightR row.minPeakLength).1
      if sub_y.length = 0 then .error .valueError
      else
        let m := listMax sub_y
        let mh := if 0 < m then m else 0
        let si : OVal :=
          if row.negativePeak then
            if 0 < (b - mh) * b then some (b / (b - mh)) else none
          else
            if 0 < b then some ((b + mh) / b) else none
        .ok (some summary.totalArea, si)

/-- The sequential per-donor loop of the Python source: first donor whose
computation raises aborts the whole call. -/
def donorLoop (g : (String × List OVal) → Except TraitError (OVal × OVal)) :
    List (String × List OVal) → Except TraitError (List (OVal × OVal))
  | [] => .ok []
  | d :: rest =>
      match g d with
      | .error e => .error e
      | .ok v =>
          match donorLoop g rest with
          | .error e => .error e
          | .ok vs => .ok (v :: vs)

/-- The loop over the parameter rows (source lines 360-419), threading the
accumulated result columns.  A baseline row stores the per-donor basal
means (missing donors get `pd.NA`); a peak row stores the AUC column and,
when `CalculateSIorII` holds, the SI or II column. -/
def processRows (time_x : List OVal) (donors : List (String × List OVal))
    (pre : String) :
    List PhaseRow → List (String × List OVal) →
      Except TraitError (List (String × List OVal))
  | [], acc => .ok acc
  | row :: rest, acc =>
      if isBaselineKind row then
        processRows time_x donors pre rest
          (upsert acc (pre ++ " " ++ row.peakName)
            (donors.map (fun d =>
              if hasNone d.2 then none
              else parse_basal_secretion time_x d.2 row.baselineTime)))
      else
        match donorLoop (fun d =>
            if hasNone d.2 then .ok ((none : OVal), (none : OVal))
            else peakDonorResult time_x d.2.reduceOption row) donors with
        | .error e => .error e
        | .ok pairs =>
            let acc1 := upsert acc (pre ++ " " ++ row.peakName ++ " AUC")
              (pairs.map Prod.fst)
            let acc2 :=
              if row.calculateSIorII then
                upsert acc1
                  (pre ++ " " ++ row.peakName ++
                    (if row.negativePeak then " II" else " SI"))
                  (pairs.map Prod.snd)
              else acc1
            processRows time_x donors pre rest acc2

/-- `traits_for_all(input_df, parameter_df, trait_prefix)`
(source lines 272-421).  The input table is the ordered list of named
columns.  The time column is located first (`KeyError` when absent), then
the parameter columns are validated (`AssertionError` when one is
missing), then the parameter rows are processed. -/
def traits_for_all (input : List (String × List OVal)) (param : ParamTable)
    (pre : String) : Except TraitError TraitTable :=
  match time_col? input with
  | none => .error .schemaError
  | some tc =>
      let donors := donor_cols input
      if (requiredColumns.filter (fun c => !(param.columns.contains c))) ≠ [] then
        .error .configError
      else
        match processRows tc.2 donors pre param.rows [] with
        | .error e => .error e
        | .ok cols => .ok { donorIds := donors.map Prod.fst, cols := cols }

/-- Specification of the scan's output: `(s, e)` is a maximal run of
consecutive indices with value above the tolerance, whose length is at
least `minLen`.  Maximality: the value before the run (when it exists) is
at or below the tolerance, and the value after the run is at or below the
tolerance unless the run reaches the final sample. -/
def IsPeakRegion (y : List ℚ) (minLen : ℤ) (s e : ℕ) : Prop :=
  s ≤ e ∧ e < y.length ∧
  (∀ i, s ≤ i → i ≤ e → FLOAT_TOLERANCE < y.getD i 0) ∧
  (s = 0 ∨ y.getD (s - 1) 0 ≤ FLOAT_TOLERANCE) ∧
  (e + 1 = y.length ∨ y.getD (e + 1) 0 ≤ FLOAT_TOLERANCE) ∧
  minLen ≤ (e : ℤ) + 1 - (s : ℤ)

/-- Invariant carried by the scan at absolute index `i`: with no open run,
the previous value (if any) was at or below the tolerance; with an open
run started at `s`, every value from `s` to `i - 1` is above the tolerance
and the value before `s` (if any) is not. -/
def ScanInv (y : List ℚ) (i : ℕ) : Option ℕ → Prop
  | none => i = 0 ∨ y.getD (i - 1) 0 ≤ FLOAT_TOLERANCE
  | some s => s < i ∧ (s = 0 ∨ y.getD (s - 1) 0 ≤ FLOAT_TOLERANCE) ∧
      ∀ j, s ≤ j → j < i → FLOAT_TOLERANCE < y.getD j 0

/-- Lower bound satisfied by the start of every region that the scan can
still discover from index `i` on: a later region, or the open run. -/
def ScanLB (i : ℕ) : Option ℕ → ℕ → Prop
  | none, s => i ≤ s
  | some s₀, s => s = s₀ ∨ i ≤ s

theorem drop_cons_facts :
    ∀ (y : List ℚ) (i : ℕ) (v : ℚ) (r : List ℚ),
      y.drop i = v :: r → i < y.length ∧ y.getD i 0 = v ∧ y.drop (i + 1) = r := by
  intro y
  induction y with
  | nil => intro i v r h; simp at h
  | cons a t ih =>
      intro i v r h
      cases i with
      | zero =>
          simp only [List.drop] at h
          cases h
          exact ⟨by simp, by simp [List.getD], by simp⟩
      | succ n =>
          have h' : t.drop n = v :: r := h
          obtain ⟨h1, h2, h3⟩ := ih n v r h'
          refine ⟨by simpa using Nat.succ_lt_succ h1, ?_, h3⟩
          simpa [List.getD_cons_succ] using h2

/-- Closing the open run `[s₀, i)` at a stop position `i` (either the end
of the curve or a value at or below the tolerance) yields a peak region
when the length test passes. -/
theorem close_region {y : List ℚ} {minLen : ℤ} {i s₀ : ℕ}
    (hs₀i : s₀ < i) (hil : i ≤ y.length)
    (hleft : s₀ = 0 ∨ y.getD (s₀ - 1) 0 ≤ FLOAT_TOLERANCE)
    (hrun : ∀ j, s₀ ≤ j → j < i → FLOAT_TOLERANCE < y.getD j 0)
    (hstop : i = y.length ∨ y.getD i 0 ≤ FLOAT_TOLERANCE)
    (hq : minLen ≤ (i : ℤ) - (s₀ : ℤ)) :
    IsPeakRegion y minLen s₀ (i - 1) := by
  refine ⟨by omega, by omega, ?_, hleft, ?_, by omega⟩
  · intro j hj1 hj2
    exact hrun j hj1 (by omega)
  · rcases hstop with h | h
    · left; omega
    · right
      have hi : i - 1 + 1 = i := by omega
      rw [hi]
      exact h

/-- A peak region starting at the open run's start must end exactly where
the run is stopped. -/
theorem region_end_eq {y : List ℚ} {minLen : ℤ} {i s₀ e : ℕ}
    (hs₀i : s₀ < i) (hil : i ≤ y.length)
    (hrun : ∀ j, s₀ ≤ j → j < i → FLOAT_TOLERANCE < y.getD j 0)
    (hstop : i = y.length ∨ y.getD i 0 ≤ FLOAT_TOLERANCE)
    (hreg : IsPeakRegion y minLen s₀ e) :
    e = i - 1 := by
  obtain ⟨hse, helen, hin, hl, hr, hlen⟩ := hreg
  by_cases hei : e < i
  · rcases Nat.lt_or_ge e (i - 1) with h | h
    · exfalso
      have he1 : e + 1 < i := by omega
      have hgt : FLOAT_TOLERANCE < y.getD (e + 1) 0 := hrun (e + 1) (by omega) he1
      rcases hr with h2 | h2
      · omega
      · linarith
    · omega
  · exfalso
    push_neg at hei
    have hgt : FLOAT_TOLERANCE < y.getD i 0 := hin i (by omega) (by omega)
    rcases hstop with h | h
    · omega
    · linarith

/-- Characterization of the scan: starting at index `i` with scanner state
`st` satisfying the invariant, the regions produced are exactly the peak
regions that start at the open run or later. -/
theorem scanGo_mem (y : List ℚ) (minLen : ℤ) :
    ∀ (rest : List ℚ) (i : ℕ) (st : Option ℕ),
      rest = y.drop i → i ≤ y.length → ScanInv y i st →
      ∀ s e, ((s, e) ∈ scanGo minLen rest i st ↔
        (IsPeakRegion y minLen s e ∧ ScanLB i st s)) := by
  intro rest
  induction rest with
  | nil =>
      intro i st hdrop hle hinv s e
      have hi : i = y.length := by
        have hlen := congrArg List.length hdrop
        simp at hlen
        omega
      cases st with
      | none =>
          simp only [scanGo, List.not_mem_nil, false_iff, not_and]
          rintro ⟨hse, helen, -, -, -, -⟩
          simp only [ScanLB]
          omega
      | some s₀ =>
          obtain ⟨hs₀i, hleft, hrun⟩ := hinv
          have hstop : i = y.length ∨ y.getD i 0 ≤ FLOAT_TOLERANCE := Or.inl hi
          constructor
          · intro hmem
            simp only [scanGo] at hmem
            by_cases hq : minLen ≤ (i : ℤ) - (s₀ : ℤ)
            · rw [if_pos hq] at hmem
              simp only [List.mem_singleton, Prod.mk.injEq] at hmem
              obtain ⟨rfl, rfl⟩ := hmem
              exact ⟨close_region hs₀i hle hleft hrun hstop hq, Or.inl rfl⟩
            · rw [if_neg hq] at hmem
              simp at hmem
          · rintro ⟨hreg, hlb⟩
            rcases hlb with rfl | hges
            · have he := region_end_eq hs₀i hle hrun hstop hreg
              subst he
              have hq : minLen ≤ (i : ℤ) - (s : ℤ) := by
                obtain ⟨hse, -, -, -, -, hlen⟩ := hreg
                omega
              simp only [scanGo, if_pos hq, List.mem_singleton]
            · exfalso
              obtain ⟨hse, helen, -, -, -, -⟩ := hreg
              omega
  | cons v rest' ih =>
      intro i st hdrop hle hinv s e
      obtain ⟨hilen, hgv, hdrop'⟩ := drop_cons_facts y i v rest' hdrop.symm
      cases st with
      | none =>
          by_cases hv : FLOAT_TOLERANCE < v
          · have hinv' : ScanInv y (i + 1) (some i) := by
              refine ⟨by omega, hinv, ?_⟩
              intro j hj1 hj2
              have hji : j = i := by omega
              rw [hji, hgv]
              exact hv
            have hrec := ih (i + 1) (some i) hdrop'.symm (by omega) hinv' s e
            simp only [scanGo, if_pos hv]
            rw [hrec]
            apply and_congr_right
            intro hreg
            simp only [ScanLB]
            omega
          · have hinv' : ScanInv y (i + 1) none := by
              right
              have hsi : i + 1 - 1 = i := by omega
              rw [hsi, hgv]
              exact not_lt.mp hv
            have hrec := ih (i + 1) none hdrop'.symm (by omega) hinv' s e
            simp only [scanGo, if_neg hv]
            rw [hrec]
            apply and_congr_right
            intro hreg
            simp only [ScanLB]
            obtain ⟨hse, -, hin, -, -, -⟩ := hreg
            have hsv : FLOAT_TOLERANCE < y.getD s 0 := hin s le_rfl hse
            constructor
            · omega
            · intro h
              rcases Nat.eq_or_lt_of_le h with hsi | h2
              · exfalso
                rw [← hsi, hgv] at hsv
                exact hv hsv
              · omega
      | some s₀ =>
          obtain ⟨hs₀i, hleft, hrun⟩ := hinv
          by_cases hv : FLOAT_TOLERANCE < v
          · have hinv' : ScanInv y (i + 1) (some s₀) := by
              refine ⟨by omega, hleft, ?_⟩
              intro j hj1 hj2
              rcases Nat.lt_or_ge j i with h | h
              · exact hrun j hj1 h
              · have hji : j = i := by omega
                rw [hji, hgv]
                exact hv
            have hrec := ih (i + 1) (some s₀) hdrop'.symm (by omega) hinv' s e
            simp only [scanGo, if_pos hv]
            rw [hrec]
            apply and_congr_right
            intro hreg
            simp only [ScanLB]
            obtain ⟨hse, -, -, hlmax, -, -⟩ := hreg
            constructor
            · rintro (h | h)
              · exact Or.inl h
              · exact Or.inr (by omega)
            · rintro (h | h)
              · exact Or.inl h
              · rcases Nat.eq_or_lt_of_le h with hsi | h2
                · exfalso
                  rcases hlmax with h0 | hsm
                  · omega
                  · have hgt : FLOAT_TOLERANCE < y.getD (s - 1) 0 := by
                      have hr := hrun (i - 1) (by omega) (by omega)
                      have hsi1 : s - 1 = i - 1 := by omega
                      rw [hsi1]
                      exact hr
                    linarith
                · exact Or.inr (by omega)
          · have hstop : i = y.length ∨ y.getD i 0 ≤ FLOAT_TOLERANCE := by
              right
              rw [hgv]
              exact not_lt.mp hv
            have hinv' : ScanInv y (i + 1) none := by
              right
              have hsi : i + 1 - 1 = i := by omega
              rw [hsi, hgv]
              exact not_lt.mp hv
            have hrec := ih (i + 1) none hdrop'.symm (by omega) hinv' s e
            simp only [scanGo, if_neg hv, List.mem_append]
            constructor
            · rintro (hmem | hmem)
              · by_cases hq : minLen ≤ (i : ℤ) - (s₀ : ℤ)
                · rw [if_pos hq] at hmem
                  simp only [List.mem_singleton, Prod.mk.injEq] at hmem
                  obtain ⟨rfl, rfl⟩ := hmem
                  exact ⟨close_region hs₀i hle hleft hrun hstop hq, Or.inl rfl⟩
                · rw [if_neg hq] at hmem
                  simp at hmem
              · have hres := hrec.mp hmem
                refine ⟨hres.1, Or.inr ?_⟩
                have hlb := hres.2
                simp only [ScanLB] at hlb
                omega
            · rintro ⟨hreg, hlb⟩
              rcases hlb with rfl | hges
              · left
                have he := region_end_eq hs₀i hle hrun hstop hreg
                subst he
                have hq : minLen ≤ (i : ℤ) - (s : ℤ) := by
                  obtain ⟨hse, -, -, -, -, hlen⟩ := hreg
                  omega
                simp only [if_pos hq, List.mem_singleton]
              · right
                apply hrec.mpr
                refine ⟨hreg, ?_⟩
                simp only [ScanLB]
                obtain ⟨hse, -, hin, -, -, -⟩ := hreg
                have hsv : FLOAT_TOLERANCE < y.getD s 0 := hin s le_rfl hse
                have hne : s ≠ i := by
                  intro hsi
                  rw [hsi, hgv] at hsv
                  exact hv hsv
                omega

/-- The scan output of `AUC_from_a_region` is exactly the set of maximal
above-tolerance runs of length at least `minLen`. -/
theorem peak_regions_iff (y : List ℚ) (minLen : ℤ) (s e : ℕ) :
    (s, e) ∈ peak_regions y minLen ↔ IsPeakRegion y minLen s e := by
  have h := scanGo_mem y minLen y 0 none (List.drop_zero y).symm (Nat.zero_le _)
    (Or.inl rfl) s e
  simpa [ScanLB, peak_regions] using h

theorem donorLoop_ok_get? {g : (String × List OVal) → Except TraitError (OVal × OVal)} :
    ∀ {l : List (String × List OVal)} {out : List (OVal × OVal)},
      donorLoop g l = .ok out →
      ∀ (j : ℕ) (d : String × List OVal), l[j]? = some d →
        ∃ v, g d = .ok v ∧ out[j]? = some v := by
  intro l
  induction l with
  | nil => intro out h j d hj; simp at hj
  | cons a rest ih =>
      intro out h j d hj
      simp only [donorLoop] at h
      cases hga : g a with
      | error e => rw [hga] at h; simp at h
      | ok v =>
          rw [hga] at h
          cases hrest : donorLoop g rest with
          | error e => rw [hrest] at h; simp at h
          | ok vs =>
              rw [hrest] at h
              simp only [Except.ok.injEq] at h
              subst h
              cases j with
              | zero =>
                  simp only [List.getElem?_cons_zero, Option.some.injEq] at hj
                  subst hj
                  exact ⟨v, hga, by simp⟩
              | succ n =>
                  rw [List.getElem?_cons_succ] at hj
                  obtain ⟨w, hw1, hw2⟩ := ih hrest n d hj
                  exact ⟨w, hw1, by rw [List.getElem?_cons_succ]; exact hw2⟩

theorem donorLoop_ok_mem {g : (String × List OVal) → Except TraitError (OVal × OVal)} :
    ∀ {l : List (String × List OVal)} {out : List (OVal × OVal)},
      donorLoop g l = .ok out →
      ∀ d, d ∈ l → ∃ v, g d = .ok v := by
  intro l
  induction l with
  | nil => intro out h d hd; simp at hd
  | cons a rest ih =>
      intro out h d hd
      simp only [donorLoop] at h
      cases hga : g a with
      | error e => rw [hga] at h; simp at h
      | ok v =>
          rw [hga] at h
          cases hrest : donorLoop g rest with
          | error e => rw [hrest] at h; simp at h
          | ok vs =>
              rcases List.mem_cons.mp hd with rfl | hd'
              · exact ⟨v, hga⟩
              · exact ih hrest d hd'

theorem upsert_forall {P : List OVal → Prop}
    {acc : List (String × List OVal)} {k : String} {v : List OVal}
    (h1 : ∀ c ∈ acc, P c.2) (h2 : P v) :
    ∀ c ∈ upsert acc k v, P c.2 := by
  intro c hc
  unfold upsert at hc
  split at hc
  · obtain ⟨c', hc', heq⟩ := List.mem_map.mp hc
    by_cases hk : c'.1 = k
    · rw [if_pos hk] at heq; rw [← heq]; exact h2
    · rw [if_neg hk] at heq; rw [← heq]; exact h1 c' hc'
  · rcases List.mem_append.mp hc with h | h
    · exact h1 c h
    · rw [List.mem_singleton.mp h]; exact h2

/-- Every selected window pair witnesses a selected (hence non-missing)
time value, so the windowed time axis is nonempty. -/
theorem window_ne_nil_of_filter {time_x : List OVal} {ys : List ℚ} {lo hi : ℤ}
    (h : ((time_x.zip ys).filter (fun p => inRangeB lo hi p.1)) ≠ []) :
    window_times time_x lo hi ≠ [] := by
  obtain ⟨p, hp⟩ := List.exists_mem_of_ne_nil _ h
  obtain ⟨hpz, hpr⟩ := List.mem_filter.mp hp
  have hx : p.1 ∈ time_x := (List.of_mem_zip hpz).1
  cases hv : p.1 with
  | none => rw [hv] at hpr; simp [inRangeB] at hpr
  | some t =>
      apply List.ne_nil_of_mem (a := t)
      unfold window_times
      rw [List.reduceOption_mem_iff]
      exact List.mem_filter.mpr ⟨by rw [← hv]; exact hx, by rw [← hv]; exact hpr⟩

/-- The corrected window curve has the same length as the window pair
selection. -/
theorem parse_region_curve_len (time_x : List OVal) (ys : List ℚ) (lo hi : ℤ)
    (bs : List RangeToken) (neg : Bool) :
    (parse_peak_and_baseline_region time_x ys lo hi bs neg).2.1.length =
      ((time_x.zip ys).filter (fun p => inRangeB lo hi p.1)).length := by
  simp [parse_peak_and_baseline_region]

/-- A successful per-donor peak computation implies a nonempty peak window:
both the NaN-baseline branch and the numeric branch raise `ValueError`
(`np.max` of an empty array) on an empty windowed sub-curve. -/
theorem peakDonorResult_ok_window {time_x : List OVal} {ys : List ℚ}
    {row : PhaseRow} {v : OVal × OVal}
    (h : peakDonorResult time_x ys row = .ok v) :
    window_times time_x row.peakRange.1 row.peakRange.2 ≠ [] := by
  intro hwin
  have hfil : ((time_x.zip ys).filter
      (fun p => inRangeB row.peakRange.1 row.peakRange.2 p.1)) = [] := by
    by_contra hne
    exact window_ne_nil_of_filter hne hwin
  have hcl : (parse_peak_and_baseline_region time_x ys row.peakRange.1 row.peakRange.2
      row.baselineTime row.negativePeak).2.1 = [] := by
    have hl := parse_region_curve_len time_x ys row.peakRange.1 row.peakRange.2
      row.baselineTime row.negativePeak
    rw [hfil] at hl
    simpa using hl
  cases hb : (parse_peak_and_baseline_region time_x ys row.peakRange.1 row.peakRange.2
      row.baselineTime row.negativePeak).2.2 with
  | none =>
      simp only [peakDonorResult, hb, hcl, List.length_nil, if_pos] at h
      exact Except.noConfusion h
  | some b =>
      simp only [peakDonorResult, hb, hcl, List.reduceOption_nil, List.length_nil,
        if_pos] at h
      exact Except.noConfusion h

/-- Peak rows of a successful `processRows` run have a nonempty window for
every donor without missing samples. -/
theorem processRows_ok_window :
    ∀ (rows : List PhaseRow) (time_x : List OVal)
      (donors : List (String × List OVal)) (pre : String)
      (acc res : List (String × List OVal)),
      processRows time_x donors pre rows acc = .ok res →
      ∀ row ∈ rows, isBaselineKind row = false →
      ∀ d ∈ donors, hasNone d.2 = false →
      window_times time_x row.peakRange.1 row.peakRange.2 ≠ [] := by
  intro rows
  induction rows with
  | nil => intro time_x donors pre acc res h row hrow; simp at hrow
  | cons row' rest ih =>
      intro time_x donors pre acc res h row hrow hkind d hd hclean
      by_cases hk : isBaselineKind row'
      · rw [processRows, if_pos hk] at h
        rcases List.mem_cons.mp hrow with rfl | hrow'
        · rw [hk] at hkind; cases hkind
        · exact ih time_x donors pre _ res h row hrow' hkind d hd hclean
      · rw [processRows, if_neg hk] at h
        cases hloop : donorLoop (fun d =>
            if hasNone d.2 then .ok ((none : OVal), (none : OVal))
            else peakDonorResult time_x d.2.reduceOption row') donors with
        | error e => rw [hloop] at h; simp at h
        | ok pairs =>
            rw [hloop] at h
            rcases List.mem_cons.mp hrow with rfl | hrow'
            · obtain ⟨v, hv⟩ := donorLoop_ok_mem hloop d hd
              rw [hclean] at hv
              simp only [Bool.false_eq_true, if_false] at hv
              exact peakDonorResult_ok_window hv
            · exact ih time_x donors pre _ res h row hrow' hkind d hd hclean

/-- A missing-sample donor's entry is `none` in every column produced by a
successful `processRows` run. -/
theorem processRows_missing :
    ∀ (rows : List PhaseRow) (time_x : List OVal)
      (donors : List (String × List OVal)) (pre : String)
      (acc res : List (String × List OVal)),
      processRows time_x donors pre rows acc = .ok res →
      ∀ (j : ℕ) (d : String × List OVal), donors[j]? = some d →
        hasNone d.2 = true →
        (∀ c ∈ acc, c.2[j]? = some none) →
        ∀ c ∈ res, c.2[j]? = some none := by
  intro rows
  induction rows with
  | nil =>
      intro time_x donors pre acc res h j d hj hmiss hacc
      simp only [processRows, Except.ok.injEq] at h
      subst h
      exact hacc
  | cons row' rest ih =>
      intro time_x donors pre acc res h j d hj hmiss hacc
      by_cases hk : isBaselineKind row'
      · rw [processRows, if_pos hk] at h
        refine ih time_x donors pre _ res h j d hj hmiss ?_
        have hcol : (donors.map (fun d =>
            if hasNone d.2 then none
            else parse_basal_secretion time_x d.2 row'.baselineTime))[j]? = some none := by
          rw [List.getElem?_map, hj]
          simp [hmiss]
        exact upsert_forall (P := fun l => l[j]? = some none) hacc hcol
      · rw [processRows, if_neg hk] at h
        cases hloop : donorLoop (fun d =>
            if hasNone d.2 then .ok ((none : OVal), (none : OVal))
            else peakDonorResult time_x d.2.reduceOption row') donors with
        | error e => rw [hloop] at h; simp at h
        | ok pairs =>
            rw [hloop] at h
            obtain ⟨v, hv, hpj⟩ := donorLoop_ok_get? hloop j d hj
            rw [hmiss] at hv
            simp only [if_true, Except.ok.injEq] at hv
            have hfst : (pairs.map Prod.fst)[j]? = some none := by
              rw [List.getElem?_map, hpj, ← hv]
              rfl
            have hsnd : (pairs.map Prod.snd)[j]? = some none := by
              rw [List.getElem?_map, hpj, ← hv]
              rfl
            refine ih time_x donors pre _ res h j d hj hmiss ?_
            by_cases hsi : row'.calculateSIorII
            · simp only [hsi, if_true]
              exact upsert_forall (P := fun l => l[j]? = some none)
                (upsert_forall (P := fun l => l[j]? = some none) hacc hfst) hsnd
            · simp only [hsi, if_false]
              exact upsert_forall (P := fun l => l[j]? = some none) hacc hfst

unseal Rat.add Rat.mul Rat.sub Rat.inv in
/-- C2: on the curve `y = [0,0,1,2,1,0,0]` over `x = [1..7]` with
`min_height_ratio = 0.1` and `min_peak_length = 3`, the integrator finds
exactly one peak and the summary's total area is exactly 4 (the inner
trapezoids contribute 3, each interpolated boundary triangle 1/2). -/
theorem c2_triangle_curve :
    (AUC_from_a_region ([1, 2, 3, 4, 5, 6, 7] : List ℚ)
        ([0, 0, 1, 2, 1, 0, 0] : List ℚ) 0 (1 / 10) 3).1.nPeaks = 1 ∧
    (AUC_from_a_region ([1, 2, 3, 4, 5, 6, 7] : List ℚ)
        ([0, 0, 1, 2, 1, 0, 0] : List ℚ) 0 (1 / 10) 3).2.length = 1 ∧
    (AUC_from_a_region ([1, 2, 3, 4, 5, 6, 7] : List ℚ)
        ([0, 0, 1, 2, 1, 0, 0] : List ℚ) 0 (1 / 10) 3).1.totalArea = 4 := by
  exact ⟨by decide, by decide, by decide⟩

/-- C3: the candidate peak regions found by the integrator are exactly the
maximal runs of consecutive indices with value above `FLOAT_TOLERANCE`
whose length is at least `min_peak_length` (a run reaching the final
sample included); and every emitted peak comes from one of those regions,
so a shorter run contributes nothing to the peaks, the count, or the
total area. -/
theorem c3_regions_exact (y : List ℚ) (minLen : ℤ) (s e : ℕ) :
    ((s, e) ∈ peak_regions y minLen ↔ IsPeakRegion y minLen s e) ∧
    (∀ (x : List ℚ) (b r : ℚ) (p : PeakInfo),
      p ∈ (AUC_from_a_region x y b r minLen).2 →
      ∃ se, se ∈ peak_regions y minLen ∧ p = peakCompute x y b se) := by
  refine ⟨peak_regions_iff y minLen s e, ?_⟩
  intro x b r p hp
  obtain ⟨se, hse, hpe⟩ := List.mem_map.mp hp
  exact ⟨se, List.mem_of_mem_filter hse, hpe.symm⟩

unseal Rat.add Rat.mul Rat.sub Rat.inv in
/-- Witness for C3: the region `(2, 4)` of the triangle curve, recovered
from its `IsPeakRegion` description through the characterization. -/
theorem c3_witness :
    (2, 4) ∈ peak_regions ([0, 0, 1, 2, 1, 0, 0] : List ℚ) 3 := by
  apply (c3_regions_exact ([0, 0, 1, 2, 1, 0, 0] : List ℚ) 3 2 4).1.mpr
  refine ⟨by omega, by decide, ?_, Or.inr (by decide), Or.inr (by decide), by decide⟩
  intro i h1 h2
  interval_cases i <;> decide

/-- C6: a range token `"a-b"` resolves to exactly the axis points in the
closed interval `[a, b]`; a bare token `"p"` resolves to `{p}` when
present and to nothing otherwise; a `|`-union resolves to the union of
its tokens' resolutions, so a token matching no axis point contributes
nothing and is not an error. -/
theorem c6_resolver (axis : List OVal) (lo hi p : ℤ) (spec : List RangeToken) (t : ℚ) :
    (some t ∈ resolve_token axis (RangeToken.interval lo hi) ↔
      some t ∈ axis ∧ ((lo : ℚ) ≤ t ∧ t ≤ (hi : ℚ))) ∧
    (some t ∈ resolve_token axis (RangeToken.point p) ↔
      some t ∈ axis ∧ t = (p : ℚ)) ∧
    (some t ∈ resolve_spec axis spec ↔
      ∃ tok, tok ∈ spec ∧ some t ∈ resolve_token axis tok) := by
  refine ⟨?_, ?_, ?_⟩
  · simp [resolve_token, List.mem_filter, token_matches, inRangeB]
  · simp [resolve_token, List.mem_filter, token_matches]
  · simp only [resolve_spec, List.mem_flatten]
    constructor
    · rintro ⟨l, hl, ht⟩
      obtain ⟨tok, htok, hte⟩ := List.mem_map.mp hl
      exact ⟨tok, htok, hte ▸ ht⟩
    · rintro ⟨tok, htok, ht⟩
      exact ⟨resolve_token axis tok, List.mem_map_of_mem _ htok, ht⟩

/-- C4: a length-qualifying run is rejected iff its maximum value is
strictly below `min_height_ratio` times the global maximum of the whole
corrected curve; and a ratio that disqualifies exactly one run removes
exactly that run from the emitted peaks, leaving the others. -/
theorem c4_height_filter (x y : List ℚ) (b r : ℚ) (minLen : ℤ) (A : ℕ × ℕ)
    (hA : A ∈ peak_regions y minLen) :
    (A ∈ surviving_regions y r minLen ↔ ¬ (sliceMax y A.1 A.2 < r * listMax y)) ∧
    (∀ r' : ℚ, sliceMax y A.1 A.2 < r' * listMax y →
      (∀ B, B ∈ peak_regions y minLen → B ≠ A →
        ¬ (sliceMax y B.1 B.2 < r' * listMax y)) →
      (AUC_from_a_region x y b r' minLen).2 =
        ((peak_regions y minLen).filter (fun B => decide (B ≠ A))).map
          (peakCompute x y b)) := by
  constructor
  · unfold surviving_regions
    rw [List.mem_filter]
    simp [hA]
  · intro r' hAr hoth
    show ((surviving_regions y r' minLen).map (peakCompute x y b)) = _
    congr 1
    unfold surviving_regions
    apply List.filter_congr
    intro B hB
    by_cases hBA : B = A
    · subst hBA
      simp [hAr]
    · simp [hoth B hB hBA, hBA]

unseal Rat.add Rat.mul Rat.sub Rat.inv in
/-- Witness for C4: on `y = [1,1,1,0,5,5,5]` the ratio 1/2 disqualifies
only the first run `(0,2)` (height 1 against global maximum 5), so the
emitted peaks are exactly those of the remaining regions. -/
theorem c4_witness :
    (AUC_from_a_region ([1, 2, 3, 4, 5, 6, 7] : List ℚ)
        ([1, 1, 1, 0, 5, 5, 5] : List ℚ) 0 (1 / 2) 3).2 =
      ((peak_regions ([1, 1, 1, 0, 5, 5, 5] : List ℚ) 3).filter
          (fun B => decide (B ≠ (0, 2)))).map
        (peakCompute ([1, 2, 3, 4, 5, 6, 7] : List ℚ) ([1, 1, 1, 0, 5, 5, 5] : List ℚ) 0) := by
  apply (c4_height_filter ([1, 2, 3, 4, 5, 6, 7] : List ℚ) ([1, 1, 1, 0, 5, 5, 5] : List ℚ)
    0 (1 / 2) 3 (0, 2) (by decide)).2 (1 / 2) (by decide)
  intro B hB hne
  rw [show peak_regions ([1, 1, 1, 0, 5, 5, 5] : List ℚ) 3 = [(0, 2), (4, 6)] from by decide]
    at hB
  rcases List.mem_cons.mp hB with rfl | hB'
  · exact absurd rfl hne
  · rw [List.mem_singleton.mp hB']
    decide

/-- C5: for a surviving run, when the end index is not the last sample and
the step `|v[e+1] - v[e]|` exceeds the tolerance, the emitted end time is
the linear zero crossing `t[e] - dx * v[e] / dy` (the code's
`t[e] + dx * v[e] / |dy|` agrees because `dy < 0` there: `v[e]` is above
the tolerance and `v[e+1]` is not), and the triangular area
`(endTime - t[e]) * v[e] / 2` is added to the run's AUC; with a step at or
below the tolerance, or at the last sample, the end time is `t[e]` and no
area is added. -/
theorem c5_right_boundary (x y : List ℚ) (b r : ℚ) (minLen : ℤ) (s e : ℕ)
    (hmem : (s, e) ∈ surviving_regions y r minLen) :
    (e + 1 < y.length →
      ((FLOAT_TOLERANCE < |y.getD (e + 1) 0 - y.getD e 0| →
        (peakCompute x y b (s, e)).endX =
          x.getD e 0 -
            (x.getD (e + 1) 0 - x.getD e 0) * y.getD e 0 /
              (y.getD (e + 1) 0 - y.getD e 0) ∧
        (peakCompute x y b (s, e)).auc =
          trapz x y s e + (left_refine x y s).2 +
            ((peakCompute x y b (s, e)).endX - x.getD e 0) * y.getD e 0 / 2) ∧
       (|y.getD (e + 1) 0 - y.getD e 0| ≤ FLOAT_TOLERANCE →
        (peakCompute x y b (s, e)).endX = x.getD e 0 ∧
        (peakCompute x y b (s, e)).auc =
          trapz x y s e + (left_refine x y s).2))) ∧
    (e + 1 = y.length →
      (peakCompute x y b (s, e)).endX = x.getD e 0 ∧
      (peakCompute x y b (s, e)).auc = trapz x y s e + (left_refine x y s).2) := by
  have hreg : IsPeakRegion y minLen s e :=
    (peak_regions_iff y minLen s e).mp (List.mem_of_mem_filter hmem)
  obtain ⟨hse, helen, hin, hlft, hr, hlen⟩ := hreg
  constructor
  · intro hlt
    have hye : FLOAT_TOLERANCE < y.getD e 0 := hin e hse le_rfl
    have hye1 : y.getD (e + 1) 0 ≤ FLOAT_TOLERANCE := by
      rcases hr with h | h
      · omega
      · exact h
    have hdy : y.getD (e + 1) 0 - y.getD e 0 < 0 := by linarith
    have hne : ¬ (e = y.length - 1) := by omega
    constructor
    · intro habs
      have habs' : |y.getD (e + 1) 0 - y.getD e 0| =
          -(y.getD (e + 1) 0 - y.getD e 0) := abs_of_neg hdy
      have hrr1 : (right_refine x y e).1 =
          x.getD e 0 + (x.getD (e + 1) 0 - x.getD e 0) * y.getD e 0 /
            |y.getD (e + 1) 0 - y.getD e 0| := by
        simp only [right_refine]
        rw [if_neg hne, if_pos habs]
      have hrr2 : (right_refine x y e).2 =
          ((right_refine x y e).1 - x.getD e 0) * y.getD e 0 / 2 := by
        simp only [right_refine]
        rw [if_neg hne, if_pos habs]
      constructor
      · rw [show (peakCompute x y b (s, e)).endX = (right_refine x y e).1 from rfl, hrr1,
          habs', div_neg]
        ring
      · rw [show (peakCompute x y b (s, e)).auc =
            trapz x y s e + (left_refine x y s).2 + (right_refine x y e).2 from rfl,
          show (peakCompute x y b (s, e)).endX = (right_refine x y e).1 from rfl, hrr2]
    · intro hle2
      have hcond : ¬ (FLOAT_TOLERANCE < |y.getD (e + 1) 0 - y.getD e 0|) := not_lt.mpr hle2
      have hrr : right_refine x y e = (x.getD e 0, 0) := by
        simp only [right_refine]
        rw [if_neg hne, if_neg hcond]
      refine ⟨?_, ?_⟩
      · rw [show (peakCompute x y b (s, e)).endX = (right_refine x y e).1 from rfl, hrr]
      · rw [show (peakCompute x y b (s, e)).auc =
            trapz x y s e + (left_refine x y s).2 + (right_refine x y e).2 from rfl, hrr]
        ring
  · intro heq
    have he : e = y.length - 1 := by omega
    have hrr : right_refine x y e = (x.getD e 0, 0) := by
      simp only [right_refine]
      rw [if_pos he]
    refine ⟨?_, ?_⟩
    · rw [show (peakCompute x y b (s, e)).endX = (right_refine x y e).1 from rfl, hrr]
    · rw [show (peakCompute x y b (s, e)).auc =
          trapz x y s e + (left_refine x y s).2 + (right_refine x y e).2 from rfl, hrr]
      ring

unseal Rat.add Rat.mul Rat.sub Rat.inv in
/-- Witness for C5: the run `(2, 4)` of the triangle curve has its right
boundary interpolated between samples 4 and 5. -/
theorem c5_witness :
    (peakCompute ([1, 2, 3, 4, 5, 6, 7] : List ℚ)
        ([0, 0, 1, 2, 1, 0, 0] : List ℚ) 0 (2, 4)).endX =
      ([1, 2, 3, 4, 5, 6, 7] : List ℚ).getD 4 0 -
        (([1, 2, 3, 4, 5, 6, 7] : List ℚ).getD 5 0 -
            ([1, 2, 3, 4, 5, 6, 7] : List ℚ).getD 4 0) *
          ([0, 0, 1, 2, 1, 0, 0] : List ℚ).getD 4 0 /
          (([0, 0, 1, 2, 1, 0, 0] : List ℚ).getD 5 0 -
            ([0, 0, 1, 2, 1, 0, 0] : List ℚ).getD 4 0) :=
  (((c5_right_boundary ([1, 2, 3, 4, 5, 6, 7] : List ℚ)
      ([0, 0, 1, 2, 1, 0, 0] : List ℚ) 0 (1 / 10) 3 2 4
      (by decide)).1 (by decide)).1 (by decide)).1

/-- Concrete input refuting claim C1: one donor whose corrected window
curve is `[0, 2, 0, 0]` — its only positive run has length 1 and is
discarded by the length filter. -/
def c1Input : List (String × List OVal) :=
  [("time", [some 1, some 2, some 3, some 4]),
   ("D", [some 1, some 3, some 1, some 1])]

/-- The positive-peak phase used against claim C1. -/
def c1Row : PhaseRow :=
  { peakName := "P", peakRange := (1, 4),
    baselineTime := [RangeToken.point 1], minHeightR := 1 / 10,
    minPeakLength := 3, baselineOrPeak := "Peak",
    negativePeak := false, calculateSIorII := true }

/-- Parameter table for the C1 counterexample. -/
def c1Param : ParamTable := { columns := requiredColumns, rows := [c1Row] }

unseal Rat.add Rat.mul Rat.sub Rat.inv in
/-- Counterexample to C1 as stated: donor D has baseline 1 and corrected
window `[0, 2, 0, 0]`; the single positive run (length 1 < 3) survives no
filter, so the summary's `maxHeight` is 0 and the claimed SI would be
`(1 + 0) / 1 = 1`; but the stored SI trait is 3, because source line 397
takes `np.max` of the whole corrected sub-curve rather than the summary's
`maxHeight`. -/
theorem c1_counterexample :
    traits_for_all c1Input c1Param "X" =
      .ok { donorIds := ["D"],
            cols := [("X P AUC", [some 0]), ("X P SI", [some 3])] } ∧
    (parse_peak_and_baseline_region [some 1, some 2, some 3, some 4]
        ([1, 3, 1, 1] : List ℚ) 1 4 [RangeToken.point 1] false).2 =
      ([some 0, some 2, some 0, some 0], some 1) ∧
    (AUC_from_a_region ([1, 2, 3, 4] : List ℚ) ([0, 2, 0, 0] : List ℚ) 1
        (1 / 10) 3).1.maxHeight = 0 ∧
    ((1 : ℚ) +
        (AUC_from_a_region ([1, 2, 3, 4] : List ℚ) ([0, 2, 0, 0] : List ℚ) 1
          (1 / 10) 3).1.maxHeight) / 1 ≠ (3 : ℚ) := by
  exact ⟨by decide, by decide, by decide, by decide⟩

/-- The SI value the amended claim C1 ascribes to the stored trait, written
from the amended claim's words for comparison with the code's
`peakDonorResult`: `(baseline + M) / baseline` when the baseline is
positive, missing otherwise, with `M` the positive part of the maximum of
the corrected windowed sub-curve. -/
def SIamendedSpec (b : ℚ) (sub_y : List ℚ) : OVal :=
  if 0 < b then
    some ((b + (if 0 < listMax sub_y then listMax sub_y else 0)) / b)
  else none

/-- C1 (amended): for a positive-peak phase computed for a donor without
missing samples and with a numeric baseline, the SI value the orchestrator
stores is `SIamendedSpec` of the baseline and the corrected windowed
sub-curve — the maximum of the whole corrected sub-curve clamped at 0, not
the summary's max height over surviving runs. -/
theorem c1_amended_si (time_x : List OVal) (ys : List ℚ) (row : PhaseRow)
    (a si : OVal) (b : ℚ)
    (hneg : row.negativePeak = false)
    (hok : peakDonorResult time_x ys row = .ok (a, si))
    (hb : (parse_peak_and_baseline_region time_x ys row.peakRange.1 row.peakRange.2
      row.baselineTime row.negativePeak).2.2 = some b) :
    si = SIamendedSpec b
      ((parse_peak_and_baseline_region time_x ys row.peakRange.1 row.peakRange.2
        row.baselineTime row.negativePeak).2.1.reduceOption) := by
  rw [hneg] at hb
  rw [hneg]
  simp only [peakDonorResult, hneg, hb] at hok
  split at hok
  · exact Except.noConfusion hok
  · simp only [Bool.false_eq_true, if_false, Except.ok.injEq, Prod.mk.injEq] at hok
    rw [← hok.2]
    rfl

unseal Rat.add Rat.mul Rat.sub Rat.inv in
/-- Witness for the amended C1 at the counterexample input: the stored SI
is 3, and the amended formula reproduces it. -/
theorem c1_witness :
    peakDonorResult [some 1, some 2, some 3, some 4] ([1, 3, 1, 1] : List ℚ) c1Row =
      .ok (some 0, some 3) ∧
    some (3 : ℚ) = SIamendedSpec 1
      ((parse_peak_and_baseline_region [some 1, some 2, some 3, some 4]
        ([1, 3, 1, 1] : List ℚ) c1Row.peakRange.1 c1Row.peakRange.2
        c1Row.baselineTime c1Row.negativePeak).2.1.reduceOption) := by
  refine ⟨by decide, ?_⟩
  exact c1_amended_si [some 1, some 2, some 3, some 4] ([1, 3, 1, 1] : List ℚ) c1Row
    (some 0) (some 3) 1 (by decide) (by decide) (by decide)

/-- C7: in a successful run, a donor whose series has a missing sample is
recorded as missing in every trait column of every phase, while the call
itself still succeeds (the gap is recovered locally, never surfaced as an
error), and the donor rows are exactly the donor columns of the input. -/
theorem c7_missing_donor (input : List (String × List OVal)) (param : ParamTable)
    (pre : String) (tbl : TraitTable) (j : ℕ) (d : String × List OVal)
    (hok : traits_for_all input param pre = .ok tbl)
    (hj : (donor_cols input)[j]? = some d)
    (hmiss : hasNone d.2 = true) :
    tbl.donorIds = (donor_cols input).map Prod.fst ∧
    ∀ c ∈ tbl.cols, c.2[j]? = some none := by
  cases htc : time_col? input with
  | none =>
      simp only [traits_for_all, htc] at hok
      exact Except.noConfusion hok
  | some tc =>
      simp only [traits_for_all, htc] at hok
      split at hok
      · exact Except.noConfusion hok
      · cases hpr : processRows tc.2 (donor_cols input) pre param.rows [] with
        | error e => rw [hpr] at hok; exact Except.noConfusion hok
        | ok cols =>
            rw [hpr] at hok
            simp only [Except.ok.injEq] at hok
            subst hok
            refine ⟨rfl, ?_⟩
            refine processRows_missing param.rows tc.2 (donor_cols input) pre [] cols hpr
              j d hj hmiss ?_
            intro c hc
            simp at hc

/-- Concrete table for the C7 witness: donor A has a gap, donor B does not. -/
def c7Input : List (String × List OVal) :=
  [("time", [some 1]), ("A", [none]), ("B", [some 2])]

/-- One baseline phase for the C7 witness. -/
def c7Param : ParamTable :=
  { columns := requiredColumns,
    rows := [{ peakName := "N", peakRange := (1, 1),
               baselineTime := [RangeToken.point 1], minHeightR := 1 / 10,
               minPeakLength := 3, baselineOrPeak := "Baseline",
               negativePeak := false, calculateSIorII := false }] }

unseal Rat.add Rat.mul Rat.sub Rat.inv in
/-- Witness for C7: donor A (with a gap) gets `none` while donor B is
computed normally in the same successful call. -/
theorem c7_witness :
    traits_for_all c7Input c7Param "X" =
      .ok { donorIds := ["A", "B"], cols := [("X N", [none, some 2])] } ∧
    ∀ c ∈ ({ donorIds := ["A", "B"],
             cols := [("X N", [none, some 2])] } : TraitTable).cols,
      c.2[0]? = some none := by
  refine ⟨by decide, ?_⟩
  exact (c7_missing_donor c7Input c7Param "X"
    { donorIds := ["A", "B"], cols := [("X N", [none, some 2])] }
    0 ("A", [none]) (by decide) (by decide) (by decide)).2

/-- C8 (amended): `traits_for_all` succeeds only when some input column
name contains `"time"` case-insensitively; when no column does, it fails
with the time-column `KeyError` (the spec's SchemaError) before producing
any trait table.  (The source takes the first matching column; further
matching columns are treated as donors, so "exactly one" is not
required.) -/
theorem c8_time_column (input : List (String × List OVal)) (param : ParamTable)
    (pre : String) :
    ((∀ c ∈ input, hasTimeName c.1 = false) →
      traits_for_all input param pre = .error .schemaError) ∧
    (∀ tbl, traits_for_all input param pre = .ok tbl →
      ∃ c ∈ input, hasTimeName c.1 = true) := by
  constructor
  · intro hall
    have hfil : input.filter (fun c => hasTimeName c.1) = [] := by
      rw [List.filter_eq_nil_iff]
      intro a ha
      simp [hall a ha]
    simp only [traits_for_all, time_col?, hfil, List.head?_nil]
  · intro tbl hok
    cases hfc : input.filter (fun c => hasTimeName c.1) with
    | nil =>
        simp only [traits_for_all, time_col?, hfc, List.head?_nil] at hok
        exact Except.noConfusion hok
    | cons tc rest =>
        have htc : tc ∈ input.filter (fun c => hasTimeName c.1) := by
          rw [hfc]
          exact List.mem_cons_self _ _
        obtain ⟨hmem, hname⟩ := List.mem_filter.mp htc
        exact ⟨tc, hmem, hname⟩

/-- Input with two columns whose names contain `"time"`. -/
def c8Input : List (String × List OVal) :=
  [("time", [some 1]), ("Time2", [some 1]), ("D", [some 2])]

/-- Counterexample to C8 as stated: the input table has two columns whose
names contain `"time"` case-insensitively (not exactly one), yet the call
succeeds — the first match is used as the time axis and `"Time2"` is
treated as a donor. -/
theorem c8_counterexample :
    (c8Input.filter (fun c => hasTimeName c.1)).length = 2 ∧
    traits_for_all c8Input { columns := requiredColumns, rows := [] } "X" =
      .ok { donorIds := ["Time2", "D"], cols := [] } := by
  exact ⟨by decide, by decide⟩

/-- Witness for the amended C8: a table with no time-like column fails with
the SchemaError. -/
theorem c8_witness :
    traits_for_all [("D", [some (1 : ℚ)])]
      { columns := requiredColumns, rows := [] } "X" = .error .schemaError :=
  (c8_time_column [("D", [some (1 : ℚ)])]
    { columns := requiredColumns, rows := [] } "X").1 (by decide)

/-- C9 (amended): when the input table has a recognizable time column and
the parameter table is missing a required column, `traits_for_all` fails
with the ConfigError (`AssertionError`) before any donor is processed and
returns no trait table.  (Without a time column the time-column check of
source line 339 fires first, so the error is the SchemaError instead.) -/
theorem c9_config_check (input : List (String × List OVal)) (param : ParamTable)
    (pre : String) (c : String × List OVal) (rc : String)
    (hc : c ∈ input) (hname : hasTimeName c.1 = true)
    (hrc : rc ∈ requiredColumns) (hmissing : param.columns.contains rc = false) :
    traits_for_all input param pre = .error .configError := by
  cases hfc : input.filter (fun c => hasTimeName c.1) with
  | nil =>
      exfalso
      have hmem : c ∈ input.filter (fun c => hasTimeName c.1) :=
        List.mem_filter.mpr ⟨hc, hname⟩
      rw [hfc] at hmem
      simp at hmem
  | cons tc rest =>
      have hne : (requiredColumns.filter (fun cn => !(param.columns.contains cn))) ≠ [] := by
        apply List.ne_nil_of_mem (a := rc)
        refine List.mem_filter.mpr ⟨hrc, ?_⟩
        rw [hmissing]
        rfl
      simp only [traits_for_all, time_col?, hfc, List.head?_cons]
      rw [if_pos hne]

/-- Counterexample to C9 as stated: the parameter table is missing
`MinPeakLength`, but the input table also lacks a time column, so the call
fails with the SchemaError, not the ConfigError. -/
theorem c9_counterexample :
    traits_for_all [("D", [some (1 : ℚ)])]
      { columns := ["PeakName", "PeakRange", "BaselineTime", "MinHeightRatio",
                    "BaselineOrPeak", "NegativePeak", "CalculateSIorII"],
        rows := [] } "X" = .error .schemaError ∧
    TraitError.schemaError ≠ TraitError.configError := by
  exact ⟨by decide, by decide⟩

/-- Witness for the amended C9: with a time column present, the missing
`MinPeakLength` column produces the ConfigError. -/
theorem c9_witness :
    traits_for_all [("time", [some (1 : ℚ)])]
      { columns := ["PeakName", "PeakRange", "BaselineTime", "MinHeightRatio",
                    "BaselineOrPeak", "NegativePeak", "CalculateSIorII"],
        rows := [] } "X" = .error .configError :=
  c9_config_check [("time", [some (1 : ℚ)])]
    { columns := ["PeakName", "PeakRange", "BaselineTime", "MinHeightRatio",
                  "BaselineOrPeak", "NegativePeak", "CalculateSIorII"],
      rows := [] } "X" ("time", [some (1 : ℚ)]) "MinPeakLength"
    (by decide) (by decide) (by decide) (by decide)

/-- C10: a successful `traits_for_all` call requires every peak-kind phase
to select at least one time point for every donor without missing samples
— the orchestrator's unguarded `np.max` on the windowed sub-curve aborts
the whole call otherwise — even though the peak integrator itself sends an
empty input to zero peaks, zero area and zero max height. -/
theorem c10_empty_window (input : List (String × List OVal)) (param : ParamTable)
    (pre : String) (tbl : TraitTable) (tc : String × List OVal)
    (hok : traits_for_all input param pre = .ok tbl)
    (htc : time_col? input = some tc) :
    (∀ row ∈ param.rows, isBaselineKind row = false →
      ∀ d ∈ donor_cols input, hasNone d.2 = false →
      window_times tc.2 row.peakRange.1 row.peakRange.2 ≠ []) ∧
    ∀ (b r : ℚ) (minLen : ℤ),
      AUC_from_a_region [] [] b r minLen =
        ({ nPeaks := 0, totalArea := 0, baseline := b, maxHeight := 0 }, []) := by
  constructor
  · simp only [traits_for_all, htc] at hok
    split at hok
    · exact Except.noConfusion hok
    · cases hpr : processRows tc.2 (donor_cols input) pre param.rows [] with
      | error e => rw [hpr] at hok; exact Except.noConfusion hok
      | ok cols =>
          exact processRows_ok_window param.rows tc.2 (donor_cols input) pre [] cols hpr
  · intro b r minLen
    rfl

/-- Input for the C10 witness. -/
def c10Input : List (String × List OVal) :=
  [("time", [some 1, some 2, some 3]), ("D", [some 1, some 1, some 1])]

/-- One peak phase with a nonempty window for the C10 witness. -/
def c10Param : ParamTable :=
  { columns := requiredColumns,
    rows := [{ peakName := "P", peakRange := (1, 3),
               baselineTime := [RangeToken.point 1], minHeightR := 1 / 10,
               minPeakLength := 3, baselineOrPeak := "Peak",
               negativePeak := false, calculateSIorII := false }] }

unseal Rat.add Rat.mul Rat.sub Rat.inv in
/-- Witness for C10 at a concrete successful call: the peak window of the
only phase is nonempty. -/
theorem c10_witness :
    window_times [some 1, some 2, some 3] 1 3 ≠ [] :=
  (c10_empty_window c10Input c10Param "X"
    { donorIds := ["D"], cols := [("X P AUC", [some 0])] }
    ("time", [some 1, some 2, some 3]) (by decide) (by decide)).1
    { peakName := "P", peakRange := (1, 3),
      baselineTime := [RangeToken.point 1], minHeightR := 1 / 10,
      minPeakLength := 3, baselineOrPeak := "Peak",
      negativePeak := false, calculateSIorII := false }
    (by decide) (by decide) ("D", [some 1, some 1, some 1]) (by decide) (by decide)
